import Mathlib

/-!
Verification development for the loki-mq messaging layer (`lokimq/lokimq.h`).

The repository source is a single C++ header.  The template functions whose
bodies appear in the header (`Message::reply`, `LokiMQ::send`,
`detail::send_control_data`, `detail::apply_send_option`, `pk_hash`, the
`send_option` structs and the `peer_info` / `category` data members) are
embedded directly from that source.  Methods that are only *declared* in the
header (the proxy-thread bodies and the configuration methods, which live in a
translation unit not present in the repository) are modelled from the
specification; each such definition carries a doc comment starting with
`Modelled from the spec:`.

Machine integers are modelled as `Nat`/`Int`; time is in milliseconds as
`Nat`; the external bencode codec (`bt_serialize`) is an abstract parameter
`f : α → String`; `bt_dict` (a C++ `std::map`) is an association list with
replace-on-insert, observed only through key lookup.
-/

namespace lokimq

/-- Association-list lookup of the first entry with the given key (models
`std::map::find` / `std::unordered_map::find`). -/
def lookupKey (k : String) : List (String × β) → Option β
  | [] => none
  | (k', v) :: rest => if k' = k then some v else lookupKey k rest

/-- Association-list insert-or-assign (models `map[k] = v`): replaces the
first entry with the given key, or appends a new entry. -/
def setKey (k : String) (v : β) : List (String × β) → List (String × β)
  | [] => [(k, v)]
  | (k', v') :: rest => if k' = k then (k, v) :: rest else (k', v') :: setKey k v rest

/-- Association-list erase of the first entry with the given key (models
`map.erase(it)` for the iterator found by `find`). -/
def removeKey (k : String) : List (String × β) → List (String × β)
  | [] => []
  | (k', v') :: rest => if k' = k then rest else (k', v') :: removeKey k rest

/-- Values storable in a control-message `bt_dict`: integers, byte strings,
and lists of byte strings (the "send" part list).  The full bencode value
type of `bt_serialize.h` is external to this repository; this is the fragment
the control channel uses. -/
inductive BtValue where
  | int (n : Int)
  | str (s : String)
  | list (l : List String)
deriving DecidableEq

/-- A `bt_dict`: string-keyed dictionary, observed through `lookupKey`. -/
abbrev BtDict := List (String × BtValue)

/-- `send_option::serialized` (lokimq.h lines 647-651): holds pre-encoded
payload bytes. -/
structure serialized where
  data : String
deriving DecidableEq

/-- The `serialized(const T& arg)` constructor: `data{lokimq::bt_serialize(arg)}`
(lokimq.h line 650), with the external encoder abstracted as `f`. -/
def mk_serialized (f : α → String) (v : α) : serialized :=
  { data := f v }

/-- The argument kinds accepted by `send(...)`: a serializable value (the
base-case `apply_send_option` template) or one of the `send_option` structs
of lokimq.h lines 642-677. -/
inductive SendOpt (α : Type) where
  | value (v : α)
  | ser (s : serialized)
  | hint (connect_hint : String)
  | optional
  | incoming
  | keep_alive (ms : Int)
deriving DecidableEq

/-- `detail::apply_send_option` (lokimq.h lines 686-714): the base case
appends `bt_serialize(arg)` to the message parts; the `serialized`
specialization appends the pre-encoded bytes; `hint`, `optional`, `incoming`
and `keep_alive` set the respective control-dictionary keys. -/
def apply_send_option (f : α → String) (st : List String × BtDict) :
    SendOpt α → List String × BtDict
  | .value v => (st.1 ++ [f v], st.2)
  | .ser s => (st.1 ++ [s.data], st.2)
  | .hint h => (st.1, setKey "hint" (.str h) st.2)
  | .optional => (st.1, setKey "optional" (.int 1) st.2)
  | .incoming => (st.1, setKey "incoming" (.int 1) st.2)
  | .keep_alive ms => (st.1, setKey "keep-alive" (.int ms) st.2)

/-- `detail::send_control_data` (lokimq.h lines 718-731): starts the parts
list with the command, appends the `[first, last)` iterator range, folds
`apply_send_option` over the option arguments in order, then stores the parts
under key "send". -/
def send_control_data (f : α → String) (cmd : String) (iter : List String)
    (opts : List (SendOpt α)) : BtDict :=
  let st := opts.foldl (apply_send_option f) (cmd :: iter, ([] : BtDict))
  setKey "send" (.list st.1) st.2

/-- A two-frame control message as written by `detail::send_control`: the
ASCII verb frame and the bencoded-dictionary frame (the dictionary is kept
unencoded here; the bencode codec is external to this repository). -/
structure ControlMessage where
  verb : String
  data : BtDict
deriving DecidableEq

/-- `LokiMQ::send` (lokimq.h lines 735-740): builds the control data, adds the
"pubkey" key, and emits verb "SEND" on the control socket. -/
def send (f : α → String) (pubkey cmd : String) (iter : List String)
    (opts : List (SendOpt α)) : ControlMessage :=
  { verb := "SEND",
    data := setKey "pubkey" (.str pubkey) (send_control_data f cmd iter opts) }

/-- The fields of `Message` (lokimq.h lines 84-109) that `reply` reads. -/
structure Message where
  data : List String := []
  pubkey : String := ""
  service_node : Bool := false

/-- `Message::reply` (lokimq.h lines 748-752): forwards to `send` on the
originator pubkey, prepending `send_option::optional` exactly when the
originator is not a service node. -/
def Message.reply (f : α → String) (m : Message) (command : String)
    (args : List (SendOpt α)) : ControlMessage :=
  if m.service_node then send f m.pubkey command [] args
  else send f m.pubkey command [] (SendOpt.optional :: args)

/-- The message parts contributed by a list of send arguments: each plain
value becomes `bt_serialize(arg)`, each `serialized` its pre-encoded bytes;
the flag options contribute none. -/
def optParts (f : α → String) : List (SendOpt α) → List String
  | [] => []
  | .value v :: rest => f v :: optParts f rest
  | .ser s :: rest => s.data :: optParts f rest
  | .hint _ :: rest => optParts f rest
  | .optional :: rest => optParts f rest
  | .incoming :: rest => optParts f rest
  | .keep_alive _ :: rest => optParts f rest

/-- Whether a `send_option::optional` occurs among the arguments. -/
def hasOptional : List (SendOpt α) → Bool
  | [] => false
  | .optional :: _ => true
  | _ :: rest => hasOptional rest

/-- Whether a `send_option::incoming` occurs among the arguments. -/
def hasIncoming : List (SendOpt α) → Bool
  | [] => false
  | .incoming :: _ => true
  | _ :: rest => hasIncoming rest

/-- The last `send_option::hint` value among the arguments, if any. -/
def optHint : List (SendOpt α) → Option String
  | [] => none
  | .hint h :: rest =>
    match optHint rest with
    | some h2 => some h2
    | none => some h
  | _ :: rest => optHint rest

/-- The last `send_option::keep_alive` value among the arguments, if any. -/
def optKeepAlive : List (SendOpt α) → Option Int
  | [] => none
  | .keep_alive ms :: rest =>
    match optKeepAlive rest with
    | some m2 => some m2
    | none => some ms
  | _ :: rest => optKeepAlive rest

/-- Authentication levels (lokimq.h lines 54-59). -/
inductive AuthLevel where
  | denied
  | none
  | basic
  | admin
deriving DecidableEq

/-- `LokiMQ::peer_info` (lokimq.h lines 246-272): `incoming` is the routing
prefix of an established incoming connection (empty when there is none);
`outgoing` is the index into `remotes` of an established outgoing connection
(`-1` when there is none); `last_activity` and `idle_expiry` drive idle
expiry.  Times are milliseconds as `Nat`. -/
structure peer_info where
  service_node : Bool := false
  auth_level : AuthLevel := .none
  incoming : String := ""
  outgoing : Int := -1
  last_activity : Nat := 0
  idle_expiry : Nat := 0
deriving DecidableEq

/-- The peer table `peers` (lokimq.h line 282): pubkey to `peer_info`. -/
abbrev PeerMap := List (String × peer_info)

/-- Number of open outgoing connections: the model of `remotes.size()`; a
newly opened outgoing connection is appended at this index. -/
def remotes_size (ps : PeerMap) : Nat :=
  ps.countP (fun e => decide (0 ≤ e.2.outgoing))

/-- Result of resolving a peer for a connect/send: use the existing outgoing
socket, route via the listener with an incoming routing prefix, establish a
new outgoing connection to the given address, or drop. -/
inductive connect_result where
  | use_outgoing (slot : Int)
  | use_incoming (route : String)
  | new_outgoing (addr : String)
  | dropped
deriving DecidableEq

/-- Modelled from the spec: the body of `LokiMQ::proxy_connect` (declared at
lokimq.h line 347) is not in the repository.  Per spec section 4.6 an
existing outgoing slot is reused with `idle_expiry = max(current,
keep_alive)` and `last_activity` updated; otherwise a live incoming routing
prefix is used; otherwise an `optional` (or `incoming`-only) request is
dropped; otherwise a new outgoing connection is opened to the `hint` address
when non-empty, else to the address returned by the peer-lookup callback,
recording the new slot with `idle_expiry = keep_alive`. -/
def proxy_connect (peer_lookup : String → String) (ps : PeerMap)
    (pubkey hint : String) (optional incoming_only : Bool)
    (keep_alive now : Nat) : PeerMap × connect_result :=
  match lookupKey pubkey ps with
  | some peer =>
    if 0 ≤ peer.outgoing ∧ incoming_only = false then
      (setKey pubkey
        { peer with last_activity := now,
                    idle_expiry := max peer.idle_expiry keep_alive } ps,
       .use_outgoing peer.outgoing)
    else if peer.incoming ≠ "" then
      (setKey pubkey { peer with last_activity := now } ps,
       .use_incoming peer.incoming)
    else if optional = true ∨ incoming_only = true then
      (ps, .dropped)
    else
      let addr := if hint ≠ "" then hint else peer_lookup pubkey
      (setKey pubkey
        { peer with outgoing := (remotes_size ps : Int),
                    last_activity := now, idle_expiry := keep_alive } ps,
       .new_outgoing addr)
  | none =>
    if optional = true ∨ incoming_only = true then
      (ps, .dropped)
    else
      let addr := if hint ≠ "" then hint else peer_lookup pubkey
      (setKey pubkey
        { outgoing := (remotes_size ps : Int),
          last_activity := now, idle_expiry := keep_alive } ps,
       .new_outgoing addr)

/-- The default keep-alive for a `send()` that opens a new outbound
connection: `DEFAULT_SEND_KEEP_ALIVE = 30s` (lokimq.h line 116), in ms. -/
def DEFAULT_SEND_KEEP_ALIVE : Nat := 30000

/-- Reads a string value out of an optional dictionary value, defaulting to
empty (absent keys behave as the empty hint/pubkey). -/
def asStr : Option BtValue → String
  | some (.str s) => s
  | _ => ""

/-- Modelled from the spec: the body of `LokiMQ::proxy_send` (declared at
lokimq.h line 358) is not in the repository.  Per spec section 4.6 it reads
`pubkey`, `hint`, `optional`, `incoming` and `keep-alive` from the control
dictionary (keep-alive defaulting to 30s) and resolves the destination with
the same logic as connect. -/
def proxy_send (peer_lookup : String → String) (ps : PeerMap) (data : BtDict)
    (now : Nat) : PeerMap × connect_result :=
  let pubkey := asStr (lookupKey "pubkey" data)
  let hint := asStr (lookupKey "hint" data)
  let optional := (lookupKey "optional" data).isSome
  let incoming := (lookupKey "incoming" data).isSome
  let keep_alive :=
    match lookupKey "keep-alive" data with
    | some (.int n) => n.toNat
    | _ => DEFAULT_SEND_KEEP_ALIVE
  proxy_connect peer_lookup ps pubkey hint optional incoming keep_alive now

/-- Modelled from the spec: the body of `LokiMQ::proxy_close_outgoing`
(declared at lokimq.h line 379) is not in the repository.  Per spec section
4.2 and the header comment, closing the outgoing connection clears the
outgoing slot and removes the record entirely when no incoming route
remains. -/
def proxy_close_outgoing (ps : PeerMap) (pubkey : String) : PeerMap :=
  match lookupKey pubkey ps with
  | some peer =>
    if 0 ≤ peer.outgoing then
      if peer.incoming = "" then removeKey pubkey ps
      else setKey pubkey { peer with outgoing := -1 } ps
    else ps
  | none => ps

/-- Modelled from the spec: the idle test and per-record effect of
`LokiMQ::proxy_expire_idle_peers` (declared at lokimq.h line 374), whose body
is not in the repository.  Per spec section 4.7, a peer with an outgoing slot
and `now - last_activity > idle_expiry` has the slot closed; if that leaves
no incoming route the record is removed; other peers are untouched. -/
def expire_peer (now : Nat) (r : peer_info) : Option peer_info :=
  if 0 ≤ r.outgoing ∧ r.idle_expiry < now - r.last_activity then
    if r.incoming = "" then none else some { r with outgoing := -1 }
  else some r

/-- Modelled from the spec: `LokiMQ::proxy_expire_idle_peers` iterates the
peer table applying the per-record idle-expiry effect. -/
def proxy_expire_idle_peers (now : Nat) (ps : PeerMap) : PeerMap :=
  ps.filterMap (fun e =>
    match expire_peer now e.2 with
    | some r => some (e.1, r)
    | none => none)

/-- Modelled from the spec: peer-record creation on successful incoming
authentication (spec sections 3 and 4.4; no body in the repository).  The
router transport attaches a non-empty routing prefix, which is stored in
`incoming` along with the stamped identity; an all-new record has no
outgoing slot. -/
def establish_incoming (ps : PeerMap) (pubkey route : String) (sn : Bool)
    (auth : AuthLevel) (now : Nat) : PeerMap :=
  if route = "" then ps
  else
    match lookupKey pubkey ps with
    | some peer =>
      setKey pubkey
        { peer with incoming := route, service_node := sn,
                    auth_level := auth, last_activity := now } ps
    | none =>
      setKey pubkey
        { incoming := route, service_node := sn, auth_level := auth,
          last_activity := now } ps

/-- The proxy-thread operations that mutate the peer table. -/
inductive peer_op where
  | establish (pubkey route : String) (sn : Bool) (auth : AuthLevel) (now : Nat)
  | connect_to (pubkey hint : String) (optional incoming_only : Bool)
      (keep_alive now : Nat)
  | close_outgoing (pubkey : String)
  | expire_idle (now : Nat)
deriving DecidableEq

/-- Modelled from the spec: one proxy-loop mutation of the peer table. -/
def apply_peer_op (peer_lookup : String → String) (ps : PeerMap) :
    peer_op → PeerMap
  | .establish pubkey route sn auth now =>
    establish_incoming ps pubkey route sn auth now
  | .connect_to pubkey hint optional incoming_only keep_alive now =>
    (proxy_connect peer_lookup ps pubkey hint optional incoming_only
      keep_alive now).1
  | .close_outgoing pubkey => proxy_close_outgoing ps pubkey
  | .expire_idle now => proxy_expire_idle_peers now ps

/-- A peer record is well-formed when it has a non-empty incoming routing
prefix or an outgoing slot index that is at least 0 (spec section 3
invariant). -/
def peer_ok (r : peer_info) : Prop :=
  r.incoming ≠ "" ∨ 0 ≤ r.outgoing

instance (r : peer_info) : Decidable (peer_ok r) := by
  unfold peer_ok
  infer_instance

/-- Every record of the peer table is well-formed. -/
def peers_wf (ps : PeerMap) : Prop :=
  ∀ e ∈ ps, peer_ok e.2

instance (ps : PeerMap) : Decidable (peers_wf ps) := by
  unfold peers_wf
  infer_instance

/-- `Access` (lokimq.h lines 62-69): minimum auth level plus the remote-SN
and local-SN requirement flags. -/
structure Access where
  auth : AuthLevel := .none
  remote_sn : Bool := false
  local_sn : Bool := false
deriving DecidableEq

/-- `LokiMQ::category` (lokimq.h lines 381-391).  The command callbacks are
opaque; the `commands` map is modelled by its list of registered names.  A
pending job is modelled by its list of message parts. -/
structure category where
  access : Access := {}
  commands : List String := []
  reserved_threads : Nat := 0
  active_threads : Nat := 0
  pending : List (List String) := []
  max_queue : Int := 200
deriving DecidableEq

/-- How the scheduler disposed of an arriving job. -/
inductive dispatch_result where
  | dispatched_reserved
  | dispatched_general
  | queued
  | dropped
deriving DecidableEq

/-- Modelled from the spec: the scheduling step of `LokiMQ::proxy_to_worker`
(declared at lokimq.h line 337), whose body is not in the repository.  Per
spec section 4.5: dispatch to a reserved thread if the category is under its
reservation; else dispatch to a general worker if one is free and idle; else
enqueue in `pending` when there is room under `max_queue` (negative meaning
unbounded); otherwise drop the job with a warning. -/
def proxy_to_worker (general_workers general_in_use idle_count : Nat)
    (cat : category) (job : List String) : category × dispatch_result :=
  if cat.active_threads < cat.reserved_threads then
    ({ cat with active_threads := cat.active_threads + 1 }, .dispatched_reserved)
  else if general_in_use < general_workers ∧ 0 < idle_count then
    ({ cat with active_threads := cat.active_threads + 1 }, .dispatched_general)
  else if cat.max_queue < 0 ∨ (cat.pending.length : Int) < cat.max_queue then
    ({ cat with pending := cat.pending ++ [job] }, .queued)
  else (cat, .dropped)

/-- Modelled from the spec: worker completion (spec section 4.5): the proxy
decrements the category's active-thread count, then drains at most one
pending job (the queue front) back to the freed worker. -/
def proxy_worker_done (cat : category) : category :=
  if cat.pending = [] then { cat with active_threads := cat.active_threads - 1 }
  else { cat with pending := cat.pending.drop 1 }

/-- `MAX_CATEGORY_LENGTH` (lokimq.h line 119). -/
def MAX_CATEGORY_LENGTH : Nat := 50

/-- `MAX_COMMAND_LENGTH` (lokimq.h line 122). -/
def MAX_COMMAND_LENGTH : Nat := 200

/-- Is this `Except` an error? -/
def isErr : Except String β → Bool
  | .error _ => true
  | .ok _ => false

/-- Modelled from the spec: the body of `LokiMQ::add_category` (declared at
lokimq.h line 529) is not in the repository.  Per spec sections 4.3 and 7, a
category name must be non-empty, at most `MAX_CATEGORY_LENGTH` characters,
and contain no `.`; adding a duplicate category is a configuration error;
otherwise the category is registered with the given access, reserved-thread
count and queue bound. -/
def add_category (cats : List (String × category)) (name : String)
    (access : Access) (reserved_threads : Nat) (max_queue : Int) :
    Except String (List (String × category)) :=
  if name.length = 0 then .error "invalid category name"
  else if MAX_CATEGORY_LENGTH < name.length then .error "category name too long"
  else if '.' ∈ name.data then .error "invalid category name"
  else if (lookupKey name cats).isSome then .error "category already exists"
  else .ok (cats ++ [(name,
    { access := access, reserved_threads := reserved_threads,
      max_queue := max_queue })])

/-- Modelled from the spec: the body of `LokiMQ::add_command` (declared at
lokimq.h line 541) is not in the repository.  Per spec sections 4.3 and 7, a
command name is limited to `MAX_COMMAND_LENGTH` characters, the target
category must already exist, and a duplicate command is a configuration
error. -/
def add_command (cats : List (String × category)) (cat name : String) :
    Except String (List (String × category)) :=
  if MAX_COMMAND_LENGTH < name.length then .error "command name too long"
  else
    match lookupKey cat cats with
    | none => .error "no such category"
    | some c =>
      if name ∈ c.commands then .error "duplicate command"
      else .ok (setKey cat { c with commands := c.commands ++ [name] } cats)

/-- The category component of a `category.command` token: the part before the
first `.`. -/
def category_part (s : String) : String :=
  (s.splitOn ".").headD ""

/-- Modelled from the spec: the body of `LokiMQ::add_command_alias` (declared
at lokimq.h line 557) is not in the repository.  Per spec section 4.3, the
category targeted by the `to` name must already exist; the `from` category is
not validated (noted as a pending tightening). -/
def add_command_alias (cats : List (String × category))
    (aliases : List (String × String)) (src dst : String) :
    Except String (List (String × String)) :=
  if (lookupKey (category_part dst) cats).isSome then .ok (setKey src dst aliases)
  else .error "no such category"

/-- Modelled from the spec: the alias-substitution step of
`LokiMQ::get_command` (declared at lokimq.h line 404), whose body is not in
the repository.  Per spec section 4.3 step 1: if the received token appears
in the alias map it is replaced (once) by the mapped-to token. -/
def resolve_alias (aliases : List (String × String)) (command : String) :
    String :=
  match lookupKey command aliases with
  | some target => target
  | none => command

/-- Little-endian interpretation of a byte list (each entry reduced mod 256),
the value `memcpy` deposits into an integer on a little-endian machine. -/
def bytesToNatLE : List Nat → Nat
  | [] => 0
  | b :: rest => b % 256 + 256 * bytesToNatLE rest

/-- `LokiMQ::pk_hash` (lokimq.h lines 274-280): `memcpy`s the first
`sizeof(size_t)` bytes of the pubkey into the hash value.  `w` is
`sizeof(size_t)`; the pubkey is its list of bytes. -/
def pk_hash (w : Nat) (pubkey : List Nat) : Nat :=
  bytesToNatLE (List.take w pubkey)

/-! ## Helper lemmas about the association-list operations -/

theorem lookupKey_nil (k : String) : lookupKey k ([] : List (String × β)) = none :=
  rfl

theorem lookupKey_setKey (k1 k2 : String) (v : β) (l : List (String × β)) :
    lookupKey k1 (setKey k2 v l) = if k2 = k1 then some v else lookupKey k1 l := by
  induction l with
  | nil => simp [setKey, lookupKey]
  | cons e rest ih =>
    obtain ⟨k', v'⟩ := e
    by_cases h : k' = k2
    · subst h
      simp only [setKey, if_pos rfl, lookupKey]
      split_ifs <;> simp_all [lookupKey]
    · simp only [setKey, if_neg h, lookupKey, ih]
      split_ifs <;> simp_all

theorem lookupKey_eq_none (k : String) (l : List (String × β))
    (h : k ∉ l.map Prod.fst) : lookupKey k l = none := by
  induction l with
  | nil => rfl
  | cons e rest ih =>
    obtain ⟨k', v'⟩ := e
    simp only [List.map_cons, List.mem_cons] at h
    push_neg at h
    simp only [lookupKey, if_neg (Ne.symm h.1)]
    exact ih h.2

theorem mem_setKey (k : String) (v : β) (l : List (String × β)) (e : String × β)
    (h : e ∈ setKey k v l) : e = (k, v) ∨ e ∈ l := by
  induction l with
  | nil =>
    simp only [setKey, List.mem_singleton] at h
    exact Or.inl h
  | cons a rest ih =>
    obtain ⟨k', v'⟩ := a
    by_cases hk : k' = k
    · simp only [setKey, if_pos hk, List.mem_cons] at h
      rcases h with h | h
      · exact Or.inl h
      · exact Or.inr (List.mem_cons_of_mem _ h)
    · simp only [setKey, if_neg hk, List.mem_cons] at h
      rcases h with h | h
      · exact Or.inr (by simp [h])
      · rcases ih h with h2 | h2
        · exact Or.inl h2
        · exact Or.inr (List.mem_cons_of_mem _ h2)

theorem mem_removeKey (k : String) (l : List (String × β)) (e : String × β)
    (h : e ∈ removeKey k l) : e ∈ l := by
  induction l with
  | nil => simp [removeKey] at h
  | cons a rest ih =>
    obtain ⟨k', v'⟩ := a
    by_cases hk : k' = k
    · simp only [removeKey, if_pos hk] at h
      exact List.mem_cons_of_mem _ h
    · simp only [removeKey, if_neg hk, List.mem_cons] at h
      rcases h with h | h
      · simp [h]
      · exact List.mem_cons_of_mem _ (ih h)

theorem lookupKey_removeKey_self (k : String) (l : List (String × β))
    (hnd : (l.map Prod.fst).Nodup) : lookupKey k (removeKey k l) = none := by
  induction l with
  | nil => rfl
  | cons a rest ih =>
    obtain ⟨k', v'⟩ := a
    simp only [List.map_cons, List.nodup_cons] at hnd
    by_cases hk : k' = k
    · subst hk
      simp only [removeKey, if_pos rfl]
      exact lookupKey_eq_none _ _ hnd.1
    · simp only [removeKey, if_neg hk, lookupKey, if_neg hk]
      exact ih hnd.2

/-! ## Helper lemmas about the send-option fold -/

theorem foldl_apply_parts (f : α → String) (opts : List (SendOpt α))
    (ps : List String) (cd : BtDict) :
    (opts.foldl (apply_send_option f) (ps, cd)).1 = ps ++ optParts f opts := by
  induction opts generalizing ps cd with
  | nil => simp [optParts]
  | cons o rest ih =>
    cases o <;> simp [apply_send_option, optParts, ih]

theorem foldl_apply_optional (f : α → String) (opts : List (SendOpt α))
    (ps : List String) (cd : BtDict) :
    lookupKey "optional" (opts.foldl (apply_send_option f) (ps, cd)).2
      = if hasOptional opts = true then some (BtValue.int 1)
        else lookupKey "optional" cd := by
  induction opts generalizing ps cd with
  | nil => simp [hasOptional]
  | cons o rest ih =>
    cases o <;> simp [apply_send_option, hasOptional, ih, lookupKey_setKey]

theorem foldl_apply_incoming (f : α → String) (opts : List (SendOpt α))
    (ps : List String) (cd : BtDict) :
    lookupKey "incoming" (opts.foldl (apply_send_option f) (ps, cd)).2
      = if hasIncoming opts = true then some (BtValue.int 1)
        else lookupKey "incoming" cd := by
  induction opts generalizing ps cd with
  | nil => simp [hasIncoming]
  | cons o rest ih =>
    cases o <;> simp [apply_send_option, hasIncoming, ih, lookupKey_setKey]

theorem foldl_apply_hint (f : α → String) (opts : List (SendOpt α))
    (ps : List String) (cd : BtDict) :
    lookupKey "hint" (opts.foldl (apply_send_option f) (ps, cd)).2
      = match optHint opts with
        | some h => some (BtValue.str h)
        | none => lookupKey "hint" cd := by
  induction opts generalizing ps cd with
  | nil => simp [optHint]
  | cons o rest ih =>
    cases o with
    | hint h =>
      simp only [List.foldl_cons, apply_send_option, ih, optHint]
      cases optHint rest <;> simp [lookupKey_setKey]
    | value v => simpa [apply_send_option, optHint] using ih (ps ++ [f v]) cd
    | ser s => simpa [apply_send_option, optHint] using ih (ps ++ [s.data]) cd
    | optional =>
      simp only [List.foldl_cons, apply_send_option, ih, optHint]
      cases optHint rest <;> simp [lookupKey_setKey]
    | incoming =>
      simp only [List.foldl_cons, apply_send_option, ih, optHint]
      cases optHint rest <;> simp [lookupKey_setKey]
    | keep_alive ms =>
      simp only [List.foldl_cons, apply_send_option, ih, optHint]
      cases optHint rest <;> simp [lookupKey_setKey]

theorem foldl_apply_keepalive (f : α → String) (opts : List (SendOpt α))
    (ps : List String) (cd : BtDict) :
    lookupKey "keep-alive" (opts.foldl (apply_send_option f) (ps, cd)).2
      = match optKeepAlive opts with
        | some d => some (BtValue.int d)
        | none => lookupKey "keep-alive" cd := by
  induction opts generalizing ps cd with
  | nil => simp [optKeepAlive]
  | cons o rest ih =>
    cases o with
    | keep_alive ms =>
      simp only [List.foldl_cons, apply_send_option, ih, optKeepAlive]
      cases optKeepAlive rest <;> simp [lookupKey_setKey]
    | value v => simpa [apply_send_option, optKeepAlive] using ih (ps ++ [f v]) cd
    | ser s => simpa [apply_send_option, optKeepAlive] using ih (ps ++ [s.data]) cd
    | optional =>
      simp only [List.foldl_cons, apply_send_option, ih, optKeepAlive]
      cases optKeepAlive rest <;> simp [lookupKey_setKey]
    | incoming =>
      simp only [List.foldl_cons, apply_send_option, ih, optKeepAlive]
      cases optKeepAlive rest <;> simp [lookupKey_setKey]
    | hint h =>
      simp only [List.foldl_cons, apply_send_option, ih, optKeepAlive]
      cases optKeepAlive rest <;> simp [lookupKey_setKey]

/-! ## Helper lemmas about idle expiry -/

theorem lookupKey_expire_not_mem (now : Nat) (ps : PeerMap) (pk : String)
    (h : pk ∉ ps.map Prod.fst) :
    lookupKey pk (proxy_expire_idle_peers now ps) = none := by
  induction ps with
  | nil => rfl
  | cons e rest ih =>
    obtain ⟨k', r'⟩ := e
    simp only [List.map_cons, List.mem_cons] at h
    push_neg at h
    simp only [proxy_expire_idle_peers, List.filterMap_cons] at ih ⊢
    cases hx : expire_peer now r' with
    | none => simpa [hx] using ih h.2
    | some r2 =>
      simp only [hx, lookupKey, if_neg h.1.symm]
      exact ih h.2

theorem lookupKey_expire (now : Nat) (ps : PeerMap)
    (hnd : (ps.map Prod.fst).Nodup) (pk : String) (r : peer_info)
    (h : lookupKey pk ps = some r) :
    lookupKey pk (proxy_expire_idle_peers now ps) = expire_peer now r := by
  induction ps with
  | nil => simp [lookupKey] at h
  | cons e rest ih =>
    obtain ⟨k', r'⟩ := e
    simp only [List.map_cons, List.nodup_cons] at hnd
    simp only [lookupKey] at h
    by_cases hk : k' = pk
    · rw [if_pos hk] at h
      rw [Option.some_inj] at h
      rw [← h]
      subst hk
      simp only [proxy_expire_idle_peers, List.filterMap_cons]
      cases hx : expire_peer now r' with
      | none =>
        simp only [hx]
        have h2 := lookupKey_expire_not_mem now rest k' hnd.1
        simpa [proxy_expire_idle_peers, hx] using h2
      | some r2 => simp [hx, lookupKey]
    · rw [if_neg hk] at h
      have hrec := ih hnd.2 h
      simp only [proxy_expire_idle_peers, List.filterMap_cons] at hrec ⊢
      cases hx : expire_peer now r' with
      | none => simpa [hx] using hrec
      | some r2 =>
        simp only [hx, lookupKey, if_neg hk]
        exact hrec

theorem lookupKey_some_mem (k : String) (l : List (String × β)) (v : β)
    (h : lookupKey k l = some v) : (k, v) ∈ l := by
  induction l with
  | nil => simp [lookupKey] at h
  | cons e rest ih =>
    obtain ⟨k', v'⟩ := e
    simp only [lookupKey] at h
    by_cases hk : k' = k
    · rw [if_pos hk] at h
      rw [Option.some_inj] at h
      simp [hk, h]
    · rw [if_neg hk] at h
      exact List.mem_cons_of_mem _ (ih h)

theorem lookupKey_some_val_mem (k : String) (l : List (String × β)) (v : β)
    (h : lookupKey k l = some v) : v ∈ l.map Prod.snd := by
  have := lookupKey_some_mem k l v h
  exact List.mem_map.mpr ⟨(k, v), this, rfl⟩

/-! ## Claim theorems -/

/-- C5: `proxy_expire_idle_peers` closes exactly the outgoing slots of peers
whose time since `last_activity` exceeds `idle_expiry` (removing the record
when no incoming route remains), and never closes or clears any peer's
incoming route. -/
theorem expire_idle_exact (now : Nat) (ps : PeerMap)
    (hnd : (ps.map Prod.fst).Nodup) (pk : String) (r : peer_info)
    (h : lookupKey pk ps = some r) :
    lookupKey pk (proxy_expire_idle_peers now ps)
      = (if 0 ≤ r.outgoing ∧ r.idle_expiry < now - r.last_activity then
          (if r.incoming = "" then none
           else some { r with outgoing := -1 })
         else some r)
    ∧ ∀ e ∈ proxy_expire_idle_peers now ps, ∃ r0 : peer_info,
        (e.1, r0) ∈ ps ∧ e.2.incoming = r0.incoming
        ∧ (0 ≤ e.2.outgoing →
            0 ≤ r0.outgoing ∧ ¬ r0.idle_expiry < now - r0.last_activity) := by
  constructor
  · rw [lookupKey_expire now ps hnd pk r h]
    rfl
  · intro e he
    simp only [proxy_expire_idle_peers, List.mem_filterMap] at he
    obtain ⟨a, ha, hg⟩ := he
    by_cases hexp : 0 ≤ a.2.outgoing ∧ a.2.idle_expiry < now - a.2.last_activity
    · by_cases hincw : a.2.incoming = ""
      · simp [expire_peer, hexp, hincw] at hg
      · simp only [expire_peer, if_pos hexp, if_neg hincw,
          Option.some_inj] at hg
        refine ⟨a.2, ?_, ?_, ?_⟩
        · rw [← hg]
          simpa using ha
        · rw [← hg]
        · rw [← hg]
          intro hout
          simp at hout
    · simp only [expire_peer, if_neg hexp, Option.some_inj] at hg
      refine ⟨a.2, ?_, ?_, ?_⟩
      · rw [← hg]
        simpa using ha
      · rw [← hg]
      · rw [← hg]
        intro hout
        exact ⟨hout, fun hi => hexp ⟨hout, hi⟩⟩

/-- Witness for C5: in a one-record table whose peer has both an incoming
route and an outgoing slot and is idle beyond expiry, the expiry pass closes
the outgoing slot and keeps the incoming route. -/
theorem expire_idle_exact_witness :
    (([("p", ({ service_node := false, auth_level := .none, incoming := "rt",
                outgoing := 0, last_activity := 0,
                idle_expiry := 5 } : peer_info))] : PeerMap).map
      Prod.fst).Nodup
    ∧ lookupKey "p"
        ([("p", ({ service_node := false, auth_level := .none,
                   incoming := "rt", outgoing := 0, last_activity := 0,
                   idle_expiry := 5 } : peer_info))] : PeerMap)
        = some { service_node := false, auth_level := .none, incoming := "rt",
                 outgoing := 0, last_activity := 0, idle_expiry := 5 }
    ∧ lookupKey "p" (proxy_expire_idle_peers 100
        ([("p", ({ service_node := false, auth_level := .none,
                   incoming := "rt", outgoing := 0, last_activity := 0,
                   idle_expiry := 5 } : peer_info))] : PeerMap))
        = some { service_node := false, auth_level := .none, incoming := "rt",
                 outgoing := -1, last_activity := 0, idle_expiry := 5 } := by
  refine ⟨by decide, by decide, ?_⟩
  have h := (expire_idle_exact 100
    ([("p", ({ service_node := false, auth_level := .none, incoming := "rt",
               outgoing := 0, last_activity := 0,
               idle_expiry := 5 } : peer_info))] : PeerMap)
    (by decide) "p"
    { service_node := false, auth_level := .none, incoming := "rt",
      outgoing := 0, last_activity := 0, idle_expiry := 5 } (by decide)).1
  rw [h]
  decide

/-- C6: if an outgoing connection already exists, `connect(p, k)` raises
`idle_expiry` to `max(current, k)` (never lowering it); consequently
`connect(p, k)` then `connect(p, k2)` starting with no record for `p` leaves
`idle_expiry = max k k2`. -/
theorem connect_keep_alive_max (peer_lookup : String → String) (ps : PeerMap)
    (p hint hint2 : String) (k k2 now now2 : Nat) (r : peer_info) :
    (lookupKey p ps = some r → 0 ≤ r.outgoing →
      lookupKey p (proxy_connect peer_lookup ps p hint false false k now).1
        = some { r with last_activity := now,
                        idle_expiry := max r.idle_expiry k })
    ∧ (lookupKey p ps = none →
        (lookupKey p (proxy_connect peer_lookup
            (proxy_connect peer_lookup ps p hint false false k now).1
            p hint2 false false k2 now2).1).map peer_info.idle_expiry
          = some (max k k2)) := by
  constructor
  · intro h hout
    simp only [proxy_connect, h]
    rw [if_pos ⟨hout, trivial⟩]
    simp [lookupKey_setKey]
  · intro h
    have h1 : (proxy_connect peer_lookup ps p hint false false k now).1
        = setKey p
            ({ service_node := false, auth_level := .none, incoming := "",
               outgoing := (remotes_size ps : Int), last_activity := now,
               idle_expiry := k } : peer_info) ps := by
      simp [proxy_connect, h]
    rw [h1]
    have h2 : lookupKey p (setKey p
        ({ service_node := false, auth_level := .none, incoming := "",
           outgoing := (remotes_size ps : Int), last_activity := now,
           idle_expiry := k } : peer_info) ps)
        = some { service_node := false, auth_level := .none, incoming := "",
                 outgoing := (remotes_size ps : Int), last_activity := now,
                 idle_expiry := k } := by
      simp [lookupKey_setKey]
    simp only [proxy_connect, h2]
    rw [if_pos ⟨Int.natCast_nonneg _, trivial⟩]
    simp [lookupKey_setKey]

/-- Witness for C6: starting from an empty peer table, connecting with
keep-alive 5 and then 3 leaves `idle_expiry = 5 = max 5 3`. -/
theorem connect_keep_alive_max_witness :
    lookupKey "p" ([] : PeerMap) = none
    ∧ (lookupKey "p" (proxy_connect (fun _ => "tcp://a")
        (proxy_connect (fun _ => "tcp://a") ([] : PeerMap) "p" "" false false 5 0).1
        "p" "" false false 3 1).1).map peer_info.idle_expiry = some (max 5 3) :=
  ⟨rfl, (connect_keep_alive_max (fun _ => "tcp://a") [] "p" "" "" 5 3 0 1
      {}).2 rfl⟩


/-- C10: `pk_hash` reads only the first `sizeof(size_t)` bytes of the pubkey:
two 32-byte pubkeys that agree on their first `w` bytes hash to the same
value, the remaining bytes being ignored entirely. -/
theorem pk_hash_ignores_tail (w : Nat) (a b : List Nat)
    (_ha : a.length = 32) (_hb : b.length = 32)
    (hagree : a.take w = b.take w) :
    pk_hash w a = pk_hash w b := by
  unfold pk_hash
  rw [hagree]

/-- Witness for C10: two concrete 32-byte pubkeys agreeing on the first 8
bytes but nowhere else hash identically with `w = 8`. -/
theorem pk_hash_ignores_tail_witness :
    (List.replicate 8 1 ++ List.replicate 24 2).length = 32
    ∧ (List.replicate 8 1 ++ List.replicate 24 3).length = 32
    ∧ (List.replicate 8 1 ++ List.replicate 24 2).take 8
        = (List.replicate 8 1 ++ List.replicate 24 3).take 8
    ∧ pk_hash 8 (List.replicate 8 1 ++ List.replicate 24 2)
        = pk_hash 8 (List.replicate 8 1 ++ List.replicate 24 3) :=
  ⟨by decide, by decide, by decide,
    pk_hash_ignores_tail 8 _ _ (by decide) (by decide) (by decide)⟩

/-- C8: passing `send_option::serialized(v)` to `send` produces exactly the
same control message as passing the plain value `v` in the same position:
the precomputed `bt_serialize(v)` bytes are appended as one message part and
nothing else changes. -/
theorem send_serialized_equiv (f : α → String) (pubkey cmd : String)
    (iter : List String) (pre post : List (SendOpt α)) (v : α) :
    send f pubkey cmd iter (pre ++ SendOpt.ser (mk_serialized f v) :: post)
      = send f pubkey cmd iter (pre ++ SendOpt.value v :: post) := by
  have hstep : ∀ st : List String × BtDict,
      apply_send_option f st (SendOpt.ser (mk_serialized f v))
        = apply_send_option f st (SendOpt.value v) := fun st => rfl
  simp [send, send_control_data, List.foldl_append, hstep]

/-- C2: `send(p, c, ...)` emits a control message whose first frame is the
verb "SEND" and whose dictionary frame has key "pubkey" equal to `p`, key
"send" the list `c` followed by the message parts in order, key "hint" the
(last) hint option value, key "optional" 1 exactly when the optional option
was given, key "incoming" 1 exactly when the incoming option was given, and
key "keep-alive" the (last) keep-alive duration in milliseconds. -/
theorem send_control_frames (f : α → String) (pubkey cmd : String)
    (iter : List String) (opts : List (SendOpt α)) :
    (send f pubkey cmd iter opts).verb = "SEND"
    ∧ lookupKey "pubkey" (send f pubkey cmd iter opts).data
        = some (BtValue.str pubkey)
    ∧ lookupKey "send" (send f pubkey cmd iter opts).data
        = some (BtValue.list (cmd :: (iter ++ optParts f opts)))
    ∧ lookupKey "hint" (send f pubkey cmd iter opts).data
        = (optHint opts).map (fun a => BtValue.str a)
    ∧ lookupKey "optional" (send f pubkey cmd iter opts).data
        = (if hasOptional opts = true then some (BtValue.int 1) else none)
    ∧ lookupKey "incoming" (send f pubkey cmd iter opts).data
        = (if hasIncoming opts = true then some (BtValue.int 1) else none)
    ∧ lookupKey "keep-alive" (send f pubkey cmd iter opts).data
        = (optKeepAlive opts).map (fun d => BtValue.int d) := by
  refine ⟨rfl, ?_, ?_, ?_, ?_, ?_, ?_⟩
  · simp [send, lookupKey_setKey]
  · simp [send, send_control_data, lookupKey_setKey, foldl_apply_parts]
  · cases h0 : optHint opts <;>
      simp [send, send_control_data, lookupKey_setKey, foldl_apply_hint, h0,
        lookupKey]
  · simp [send, send_control_data, lookupKey_setKey, foldl_apply_optional,
      lookupKey]
  · simp [send, send_control_data, lookupKey_setKey, foldl_apply_incoming,
      lookupKey]
  · cases h0 : optKeepAlive opts <;>
      simp [send, send_control_data, lookupKey_setKey, foldl_apply_keepalive,
        h0, lookupKey]


/-! ## Proxy-send helper lemmas -/

theorem proxy_send_dropped (f : α → String) (peer_lookup : String → String)
    (ps : PeerMap) (pubkey cmd : String) (iter : List String)
    (opts : List (SendOpt α)) (now : Nat)
    (hopt : hasOptional opts = true)
    (hgone : lookupKey pubkey ps = none) :
    (proxy_send peer_lookup ps (send f pubkey cmd iter opts).data now).2
      = connect_result.dropped := by
  have hpk : asStr (lookupKey "pubkey" (send f pubkey cmd iter opts).data)
      = pubkey := by
    simp [send, lookupKey_setKey, asStr]
  have ho : (lookupKey "optional" (send f pubkey cmd iter opts).data).isSome
      = true := by
    simp [send, send_control_data, lookupKey_setKey, foldl_apply_optional,
      hopt]
  simp only [proxy_send]
  rw [hpk]
  simp [proxy_connect, hgone, ho]

theorem proxy_send_new_outgoing (f : α → String) (peer_lookup : String → String)
    (ps : PeerMap) (pubkey cmd : String) (iter : List String)
    (opts : List (SendOpt α)) (now : Nat)
    (hopt : hasOptional opts = false) (hinc : hasIncoming opts = false)
    (hhint : optHint opts = none)
    (hgone : lookupKey pubkey ps = none) :
    (proxy_send peer_lookup ps (send f pubkey cmd iter opts).data now).2
      = connect_result.new_outgoing (peer_lookup pubkey) := by
  have hpk : asStr (lookupKey "pubkey" (send f pubkey cmd iter opts).data)
      = pubkey := by
    simp [send, lookupKey_setKey, asStr]
  have hh : asStr (lookupKey "hint" (send f pubkey cmd iter opts).data)
      = "" := by
    simp [send, send_control_data, lookupKey_setKey, foldl_apply_hint, hhint,
      asStr, lookupKey]
  have ho : (lookupKey "optional" (send f pubkey cmd iter opts).data).isSome
      = false := by
    simp [send, send_control_data, lookupKey_setKey, foldl_apply_optional,
      hopt, lookupKey]
  have hi : (lookupKey "incoming" (send f pubkey cmd iter opts).data).isSome
      = false := by
    simp [send, send_control_data, lookupKey_setKey, foldl_apply_incoming,
      hinc, lookupKey]
  simp only [proxy_send]
  rw [hpk, hh, ho, hi]
  simp [proxy_connect, hgone]

/-- C1: `Message::reply` forwards to `send` on the originator pubkey with
`send_option::optional` added exactly when the originator is not a service
node; consequently, when the peer's connection is gone, a reply to a
non-service-node peer is dropped while a reply to a service node opens a new
outgoing connection to the address returned by the peer-lookup callback. -/
theorem reply_optional_exactly_when_not_sn (f : α → String)
    (peer_lookup : String → String) (m : Message) (c : String)
    (args : List (SendOpt α)) (ps : PeerMap) (now : Nat)
    (hopt : hasOptional args = false) (hinc : hasIncoming args = false)
    (hhint : optHint args = none)
    (hgone : lookupKey m.pubkey ps = none) :
    Message.reply f m c args
      = send f m.pubkey c []
          (if m.service_node then args else SendOpt.optional :: args)
    ∧ (m.service_node = false →
        (proxy_send peer_lookup ps (Message.reply f m c args).data now).2
          = connect_result.dropped)
    ∧ (m.service_node = true →
        (proxy_send peer_lookup ps (Message.reply f m c args).data now).2
          = connect_result.new_outgoing (peer_lookup m.pubkey)) := by
  refine ⟨?_, ?_, ?_⟩
  · cases hsn : m.service_node <;> simp [Message.reply, hsn]
  · intro hsn
    have hr : Message.reply f m c args
        = send f m.pubkey c [] (SendOpt.optional :: args) := by
      simp [Message.reply, hsn]
    rw [hr]
    exact proxy_send_dropped f peer_lookup ps m.pubkey c [] _ now
      (by simp [hasOptional]) hgone
  · intro hsn
    have hr : Message.reply f m c args = send f m.pubkey c [] args := by
      simp [Message.reply, hsn]
    rw [hr]
    exact proxy_send_new_outgoing f peer_lookup ps m.pubkey c [] args now
      hopt hinc hhint hgone

/-- Witness for C1: a reply to a non-service-node peer with no remaining
connection record is dropped by the proxy. -/
theorem reply_optional_exactly_when_not_sn_witness :
    hasOptional ([] : List (SendOpt String)) = false
    ∧ lookupKey "pk" ([] : PeerMap) = none
    ∧ (proxy_send (fun _ => "tcp://a") []
        (Message.reply (fun (s : String) => s)
          { data := [], pubkey := "pk", service_node := false } "cmd"
          ([] : List (SendOpt String))).data 0).2
        = connect_result.dropped :=
  ⟨rfl, rfl,
    (reply_optional_exactly_when_not_sn (fun (s : String) => s)
      (fun _ => "tcp://a")
      { data := [], pubkey := "pk", service_node := false } "cmd" [] [] 0
      rfl rfl rfl rfl).2.1 rfl⟩

/-- C3: every peer record has a non-empty incoming routing prefix or an
outgoing slot index of at least 0; the operations that drop the last
remaining of the two (closing the outgoing connection, idle expiry with no
incoming route) remove the record from the map. -/
theorem peer_table_invariant (peer_lookup : String → String) (ps : PeerMap)
    (op : peer_op) (hw : peers_wf ps) (hnd : (ps.map Prod.fst).Nodup) :
    peers_wf (apply_peer_op peer_lookup ps op)
    ∧ (∀ pk r, lookupKey pk ps = some r → r.incoming = "" →
        lookupKey pk (apply_peer_op peer_lookup ps (.close_outgoing pk)) = none)
    ∧ (∀ pk r now, lookupKey pk ps = some r → r.incoming = "" →
        r.idle_expiry < now - r.last_activity →
        lookupKey pk (apply_peer_op peer_lookup ps (.expire_idle now)) = none) := by
  refine ⟨?_, ?_, ?_⟩
  · cases op with
    | establish pubkey route sn auth now =>
      simp only [apply_peer_op, establish_incoming]
      split_ifs with hroute
      · exact hw
      · cases hlk : lookupKey pubkey ps with
        | some peer =>
          intro e he
          rcases mem_setKey _ _ _ _ he with rfl | he2
          · exact Or.inl hroute
          · exact hw e he2
        | none =>
          intro e he
          rcases mem_setKey _ _ _ _ he with rfl | he2
          · exact Or.inl hroute
          · exact hw e he2
    | connect_to pubkey hint optional incoming_only keep_alive now =>
      simp only [apply_peer_op]
      cases hlk : lookupKey pubkey ps with
      | some peer =>
        simp only [proxy_connect, hlk]
        split_ifs with h1 h2 h3 hh
        · intro e he
          rcases mem_setKey _ _ _ _ he with rfl | he2
          · exact Or.inr h1.1
          · exact hw e he2
        · intro e he
          rcases mem_setKey _ _ _ _ he with rfl | he2
          · exact Or.inl h2
          · exact hw e he2
        · exact hw
        · intro e he
          rcases mem_setKey _ _ _ _ he with rfl | he2
          · exact Or.inr (Int.natCast_nonneg _)
          · exact hw e he2
        · intro e he
          rcases mem_setKey _ _ _ _ he with rfl | he2
          · exact Or.inr (Int.natCast_nonneg _)
          · exact hw e he2
      | none =>
        simp only [proxy_connect, hlk]
        split_ifs with h1 hh
        · exact hw
        · intro e he
          rcases mem_setKey _ _ _ _ he with rfl | he2
          · exact Or.inr (Int.natCast_nonneg _)
          · exact hw e he2
        · intro e he
          rcases mem_setKey _ _ _ _ he with rfl | he2
          · exact Or.inr (Int.natCast_nonneg _)
          · exact hw e he2
    | close_outgoing pubkey =>
      simp only [apply_peer_op]
      cases hlk : lookupKey pubkey ps with
      | some peer =>
        simp only [proxy_close_outgoing, hlk]
        split_ifs with h1 h2
        · intro e he
          exact hw e (mem_removeKey _ _ _ he)
        · intro e he
          rcases mem_setKey _ _ _ _ he with rfl | he2
          · exact Or.inl h2
          · exact hw e he2
        · exact hw
      | none =>
        simp only [proxy_close_outgoing, hlk]
        exact hw
    | expire_idle now =>
      simp only [apply_peer_op]
      intro e he
      simp only [proxy_expire_idle_peers, List.mem_filterMap] at he
      obtain ⟨a, ha, hg⟩ := he
      by_cases hexp : 0 ≤ a.2.outgoing ∧ a.2.idle_expiry < now - a.2.last_activity
      · by_cases hincw : a.2.incoming = ""
        · simp [expire_peer, hexp, hincw] at hg
        · simp only [expire_peer, if_pos hexp, if_neg hincw,
            Option.some_inj] at hg
          rw [← hg]
          exact Or.inl hincw
      · simp only [expire_peer, if_neg hexp, Option.some_inj] at hg
        rw [← hg]
        exact hw a ha
  · intro pk r hlk hinc0
    have hout : 0 ≤ r.outgoing := by
      rcases hw _ (lookupKey_some_mem _ _ _ hlk) with h | h
      · exact absurd hinc0 h
      · exact h
    simp only [apply_peer_op, proxy_close_outgoing, hlk, if_pos hout,
      if_pos hinc0]
    exact lookupKey_removeKey_self pk ps hnd
  · intro pk r now hlk hinc0 hidle
    have hout : 0 ≤ r.outgoing := by
      rcases hw _ (lookupKey_some_mem _ _ _ hlk) with h | h
      · exact absurd hinc0 h
      · exact h
    simp only [apply_peer_op]
    rw [lookupKey_expire now ps hnd pk r hlk]
    simp [expire_peer, hout, hidle, hinc0]

/-- Witness for C3: closing the outgoing connection of a peer whose record
has no incoming route removes the record, and the invariant survives. -/
theorem peer_table_invariant_witness :
    peers_wf ([("p", ({ service_node := true, auth_level := .none,
                        incoming := "", outgoing := 0, last_activity := 0,
                        idle_expiry := 5 } : peer_info))] : PeerMap)
    ∧ (([("p", ({ service_node := true, auth_level := .none, incoming := "",
                  outgoing := 0, last_activity := 0,
                  idle_expiry := 5 } : peer_info))] : PeerMap).map
        Prod.fst).Nodup
    ∧ peers_wf (apply_peer_op (fun _ => "tcp://a")
        ([("p", ({ service_node := true, auth_level := .none, incoming := "",
                   outgoing := 0, last_activity := 0,
                   idle_expiry := 5 } : peer_info))] : PeerMap)
        (.close_outgoing "p")) :=
  ⟨by decide, by decide,
    (peer_table_invariant (fun _ => "tcp://a") _ (.close_outgoing "p")
      (by decide) (by decide)).1⟩

/-- C4: with `max_queue` at least 0 the pending queue never exceeds it: an
arriving job that cannot be dispatched is queued only when there is room
under `max_queue` and is otherwise dropped (with a warning logged), and a
worker completion only shrinks the queue. -/
theorem pending_queue_bounded (general_workers general_in_use idle_count : Nat)
    (cat : category) (job : List String)
    (hq : 0 ≤ cat.max_queue)
    (hinv : (cat.pending.length : Int) ≤ cat.max_queue) :
    (((proxy_to_worker general_workers general_in_use idle_count cat
        job).1.pending.length : Int) ≤ cat.max_queue)
    ∧ ((proxy_to_worker general_workers general_in_use idle_count cat job).2
          = dispatch_result.queued →
        (cat.pending.length : Int) < cat.max_queue)
    ∧ (¬ cat.active_threads < cat.reserved_threads →
        ¬ (general_in_use < general_workers ∧ 0 < idle_count) →
        cat.max_queue ≤ (cat.pending.length : Int) →
        (proxy_to_worker general_workers general_in_use idle_count cat job).2
          = dispatch_result.dropped)
    ∧ (((proxy_worker_done cat).pending.length : Int) ≤ cat.max_queue) := by
  refine ⟨?_, ?_, ?_, ?_⟩
  · unfold proxy_to_worker
    split_ifs with h1 h2 h3
    · simpa using hinv
    · simpa using hinv
    · rcases h3 with h3 | h3
      · omega
      · simp only [List.length_append, List.length_cons, List.length_nil]
        push_cast
        omega
    · simpa using hinv
  · unfold proxy_to_worker
    split_ifs with h1 h2 h3
    · intro hc
      simp at hc
    · intro hc
      simp at hc
    · intro _
      rcases h3 with h3 | h3
      · omega
      · exact h3
    · intro hc
      simp at hc
  · intro hr hg hfull
    unfold proxy_to_worker
    rw [if_neg hr, if_neg hg, if_neg (by omega)]
  · unfold proxy_worker_done
    split_ifs with h1
    · simpa using hinv
    · simp only [List.length_drop]
      omega

/-- Witness for C4: a full queue (2 of max 2) with no dispatchable worker
drops the arriving job. -/
theorem pending_queue_bounded_witness :
    (0 : Int) ≤ ({ access := {}, commands := [], reserved_threads := 0,
                   active_threads := 0, pending := [["a"], ["b"]],
                   max_queue := 2 } : category).max_queue
    ∧ ((({ access := {}, commands := [], reserved_threads := 0,
           active_threads := 0, pending := [["a"], ["b"]],
           max_queue := 2 } : category).pending.length : Int)
        ≤ ({ access := {}, commands := [], reserved_threads := 0,
             active_threads := 0, pending := [["a"], ["b"]],
             max_queue := 2 } : category).max_queue)
    ∧ (proxy_to_worker 0 0 0
        { access := {}, commands := [], reserved_threads := 0,
          active_threads := 0, pending := [["a"], ["b"]], max_queue := 2 }
        ["c"]).2 = dispatch_result.dropped :=
  ⟨by decide, by decide,
    (pending_queue_bounded 0 0 0
      { access := {}, commands := [], reserved_threads := 0,
        active_threads := 0, pending := [["a"], ["b"]], max_queue := 2 }
      ["c"] (by decide) (by decide)).2.2.1 (by decide) (by simp)
      (by decide)⟩

/-- C7 counterexample: with the alias map a.b to c.d and c.d to e.f, the
alias substitution applied twice to the received token "a.b" yields "e.f"
while applied once it yields "c.d", so the substitution performed by
`get_command` is not idempotent as claimed. -/
theorem alias_not_idempotent :
    ¬ (resolve_alias [("a.b", "c.d"), ("c.d", "e.f")]
        (resolve_alias [("a.b", "c.d"), ("c.d", "e.f")] "a.b")
      = resolve_alias [("a.b", "c.d"), ("c.d", "e.f")] "a.b") := by
  decide

/-- C7 (amended): the alias substitution is idempotent provided no alias
target is itself an alias key (no chained aliases): then resolving any
received command token twice yields the same token, and hence the same
category/handler pair, as resolving it once. -/
theorem alias_idempotent_no_chain (aliases : List (String × String))
    (X : String)
    (h : ∀ t ∈ aliases.map Prod.snd, lookupKey t aliases = none) :
    resolve_alias aliases (resolve_alias aliases X) = resolve_alias aliases X := by
  cases hx : lookupKey X aliases with
  | none => simp [resolve_alias, hx]
  | some t =>
    have ht := lookupKey_some_val_mem X aliases t hx
    simp [resolve_alias, hx, h t ht]

/-- Witness for C7 (amended): a single unchained alias resolves
idempotently. -/
theorem alias_idempotent_no_chain_witness :
    (∀ t ∈ ([("a.b", "c.d")].map Prod.snd),
        lookupKey t [("a.b", "c.d")] = none)
    ∧ resolve_alias [("a.b", "c.d")] (resolve_alias [("a.b", "c.d")] "a.b")
        = resolve_alias [("a.b", "c.d")] "a.b" :=
  ⟨by decide, alias_idempotent_no_chain _ _ (by decide)⟩

/-- C9: configuration enforces the naming limits: `add_category` fails for a
name that is empty, longer than `MAX_CATEGORY_LENGTH` (50) or containing a
dot; `add_command` fails for a name longer than `MAX_COMMAND_LENGTH` (200)
and for a category that was never created; a command alias can only target
an already-created category. -/
theorem config_naming_limits (cats : List (String × category))
    (aliases : List (String × String)) (name catname cmdname src dst : String)
    (access : Access) (rt : Nat) (mq : Int) :
    ((name.length = 0 ∨ MAX_CATEGORY_LENGTH < name.length
        ∨ '.' ∈ name.data) →
      isErr (add_category cats name access rt mq) = true)
    ∧ (MAX_COMMAND_LENGTH < cmdname.length →
        isErr (add_command cats catname cmdname) = true)
    ∧ (lookupKey catname cats = none →
        isErr (add_command cats catname cmdname) = true)
    ∧ (lookupKey (category_part dst) cats = none →
        isErr (add_command_alias cats aliases src dst) = true) := by
  refine ⟨?_, ?_, ?_, ?_⟩
  · intro h
    unfold add_category
    split_ifs with h1 h2 h3 h4 <;> try rfl
    rcases h with h | h | h
    · exact absurd h h1
    · exact absurd h h2
    · exact absurd h h3
  · intro h
    unfold add_command
    rw [if_pos h]
    rfl
  · intro h
    unfold add_command
    split_ifs with h1
    · rfl
    · simp [h, isErr]
  · intro h
    unfold add_command_alias
    simp [h, isErr]

set_option maxRecDepth 4000 in
/-- Witness for C9: a dotted category name, an over-long command name, a
command for a missing category and an alias to a missing category are all
rejected. -/
theorem config_naming_limits_witness :
    isErr (add_category [] "a.b" {} 0 200) = true
    ∧ isErr (add_command [] "x" (String.mk (List.replicate 201 'y'))) = true
    ∧ isErr (add_command [] "nocat" "cmd") = true
    ∧ isErr (add_command_alias [] [] "old.hi" "new.hello") = true :=
  ⟨(config_naming_limits [] [] "a.b" "" "" "" "" {} 0 200).1
      (Or.inr (Or.inr (by decide))),
    (config_naming_limits [] [] "" "x" (String.mk (List.replicate 201 'y'))
      "" "" {} 0 200).2.1 (by decide),
    (config_naming_limits [] [] "" "nocat" "cmd" "" "" {} 0 200).2.2.1 rfl,
    (config_naming_limits [] [] "" "" "" "old.hi" "new.hello" {} 0
      200).2.2.2 rfl⟩


end lokimq
